import Mathlib

/-!
Verification development for the College_daddy repository.

The JavaScript sources are shallowly embedded in Lean:
* JS strings are modelled as `List Char` (Unicode scalar sequences) except in
  `formatFileSize`, which returns a Lean `String`.
* the notes-metadata maintenance script (`update-file-metadata`) is modelled by
  `scanForNewFiles`, `updateMaterialMetadata`, `runMetadataScript` and friends;
* the theme manager of the main navigation script is modelled as a state
  machine over `ThemeState`;
* the offline cache is modelled over an inductive JSON value type `JVal`
  together with an executable serializer and parser.

Browser and Node primitives (localStorage, the DOM, the filesystem) are
modelled as explicit state passed to the embedded functions; a throwing
primitive is represented by an explicit "failure" state or by an `Option`
result, so that the try/catch structure of the source is mirrored by total
functions.
-/

/-! ## JS string helpers over `List Char` -/

/-- JS `haystack.includes(needle)`: substring containment test. -/
def containsSub (needle : List Char) : List Char → Bool
  | [] => needle.isEmpty
  | c :: rest => needle.isPrefixOf (c :: rest) || containsSub needle rest

/-- Fuel-driven worker for JS `String.prototype.split` with a non-empty string
separator: splits at every non-overlapping occurrence of `sep`, left to right.
The fuel is an upper bound on the input length, so the zero-fuel branch is
never hit when called through `splitOnSub`. -/
def splitOnAux (sep : List Char) : Nat → List Char → List Char → List (List Char)
  | 0, _, acc => [acc.reverse]
  | _, [], acc => [acc.reverse]
  | fuel + 1, c :: rest, acc =>
    if sep.isPrefixOf (c :: rest) then
      acc.reverse :: splitOnAux sep fuel (rest.drop (sep.length - 1)) []
    else
      splitOnAux sep fuel rest (c :: acc)

/-- JS `s.split(sep)` for a non-empty string separator `sep`. -/
def splitOnSub (sep s : List Char) : List (List Char) :=
  splitOnAux sep (s.length + 1) s []

/-- JS `s.split(c)` for a single-character separator. -/
def splitChar (sep : Char) : List Char → List (List Char)
  | [] => [[]]
  | c :: rest =>
    if c = sep then [] :: splitChar sep rest
    else
      match splitChar sep rest with
      | [] => [[c]]
      | p :: ps => (c :: p) :: ps

/-- JS `s.replace(pat, '')` with a string pattern: removes the first
occurrence of `pat` (JS `String.prototype.replace` with a string argument
replaces only the first match). -/
def removeFirst (pat : List Char) : List Char → List Char
  | [] => []
  | c :: rest =>
    if pat.isPrefixOf (c :: rest) then (c :: rest).drop pat.length
    else c :: removeFirst pat rest

/-- JS `s.toLowerCase()`; the repository only lower-cases ASCII names, where
`Char.toLower` agrees with JS. -/
def toLowerStr (s : List Char) : List Char := s.map Char.toLower

/-- JS `s.startsWith(p)`. -/
def startsWith (p s : List Char) : Bool := p.isPrefixOf s

/-- JS `s.endsWith(p)`. -/
def endsWith (p s : List Char) : Bool := p.isSuffixOf s

/-- Decimal digit test, JS `\d` (code points 48 to 57). -/
def isDigitChar (c : Char) : Bool := 48 ≤ c.toNat && c.toNat ≤ 57

/-- JS whitespace as matched by `\s` (the repository only ever meets spaces
and tabs in file names). -/
def isSpaceChar (c : Char) : Bool := c = ' ' || c = '\t' || c = '\n' || c = '\r'

/-- Numeric value of a decimal digit character. -/
def digitVal (c : Char) : Nat := c.toNat - '0'.toNat

/-- Fold a list of decimal digit characters into a natural number,
most-significant digit first. -/
def digitsToNat (acc : Nat) : List Char → Nat
  | [] => acc
  | c :: rest => digitsToNat (acc * 10 + digitVal c) rest

/-- JS `parseInt(s)`: optional leading whitespace, optional sign, then a
maximal run of decimal digits; `none` models `NaN` (no digits found). -/
def jsParseInt (s : List Char) : Option Int :=
  let s1 := s.dropWhile isSpaceChar
  match s1 with
  | '-' :: rest =>
    match rest.takeWhile isDigitChar with
    | [] => none
    | ds => some (-(digitsToNat 0 ds : Int))
  | '+' :: rest =>
    match rest.takeWhile isDigitChar with
    | [] => none
    | ds => some (digitsToNat 0 ds : Int)
  | _ =>
    match s1.takeWhile isDigitChar with
    | [] => none
    | ds => some (digitsToNat 0 ds : Int)

/-- Association-list read, modelling key-value stores such as localStorage. -/
def assocGet (k : List Char) : List (List Char × List Char) → Option (List Char)
  | [] => none
  | (k1, v) :: rest => if k1 = k then some v else assocGet k rest

/-- Association-list write: overwrite the first binding of `k`, or append. -/
def assocSet (k v : List Char) : List (List Char × List Char) → List (List Char × List Char)
  | [] => [(k, v)]
  | (k1, v1) :: rest => if k1 = k then (k, v) :: rest else (k1, v1) :: assocSet k v rest

/-! ## `formatFileSize` (scripts/update-file-metadata.js)

```js
function formatFileSize(bytes) {
    if (bytes === 0) return '0 Bytes';
    const k = 1024;
    const sizes = ['Bytes', 'KB', 'MB', 'GB'];
    const i = Math.floor(Math.log(bytes) / Math.log(k));
    return Math.round(bytes / Math.pow(k, i) * 100) / 100 + ' ' + sizes[i];
}
```

The source computes with JS doubles.  `Math.floor(Math.log(bytes)/Math.log(k))`
is modelled as the exact integer floor logarithm (`ilogAux`), and the
round-to-two-decimals step as exact rational rounding; at the inputs the
specification speaks about (0 and 1024) the double computation is exact, so
the model and the source agree there. -/

/-- Floor logarithm in base `k`, fuel-driven so it reduces in the kernel;
`ilogAux k fuel n` with `fuel ≥ n` computes `Math.floor(log n / log k)`. -/
def ilogAux (k : Nat) : Nat → Nat → Nat
  | 0, _ => 0
  | fuel + 1, n => if n < k then 0 else 1 + ilogAux k fuel (n / k)

/-- Render `h / 100` the way JS prints the corresponding number
(`Math.round(x*100)/100` followed by string conversion): no trailing
fractional zeros. -/
def renderHundredths (h : Nat) : String :=
  let ip := toString (h / 100)
  if h % 100 = 0 then ip
  else if h % 10 = 0 then ip ++ "." ++ toString (h % 100 / 10)
  else ip ++ "." ++ toString (h % 100 / 10) ++ toString (h % 10)

/-- `formatFileSize` from the metadata script.  `Math.round` on a nonnegative
value is floor(x + 1/2), embedded as exact natural arithmetic. -/
def formatFileSize (bytes : Nat) : String :=
  if bytes = 0 then "0 Bytes"
  else
    let i := ilogAux 1024 bytes bytes
    let den := 1024 ^ i
    let hundredths := (bytes * 100 * 2 + den) / (2 * den)
    let sizes := ["Bytes", "KB", "MB", "GB"]
    renderHundredths hundredths ++ " " ++ sizes.getD i "undefined"

/-! ## Theme manager (assets/js/navigation.js, extended version)

State of a `ThemeManager` instance together with the browser localStorage it
reads and writes.  `store = none` models a browser whose `localStorage`
accesses throw (the try/catch blocks of the source then take their catch
branch); `store = some kvs` models a working key-value store.  The DOM
side effects of `applyTheme` (setting the `data-theme` attribute, the
transition class and the icon) carry no state the claims mention and are not
part of the model. -/

structure ThemeState where
  store : Option (List (List Char × List Char))
  theme : List Char
  autoMode : Bool
  autoCheckRunning : Bool
  deriving DecidableEq

/-- `getStoredTheme`: `localStorage.getItem('theme')`, returning `null`
(modelled `none`) when the access throws. -/
def getStoredTheme (store : Option (List (List Char × List Char))) : Option (List Char) :=
  match store with
  | none => none
  | some kvs => assocGet "theme".data kvs

/-- `setStoredTheme`: `localStorage.setItem('theme', theme)`; when the access
throws the store is left unchanged and the exception is swallowed. -/
def setStoredTheme (store : Option (List (List Char × List Char))) (theme : List Char) :
    Option (List (List Char × List Char)) :=
  match store with
  | none => none
  | some kvs => some (assocSet "theme".data theme kvs)

/-- `getAutoMode`: `localStorage.getItem('themeAutoMode') === 'true'`, with
`false` on a throwing store. -/
def getAutoMode (store : Option (List (List Char × List Char))) : Bool :=
  match store with
  | none => false
  | some kvs => assocGet "themeAutoMode".data kvs == some "true".data

/-- `setAutoMode`: `localStorage.setItem('themeAutoMode', enabled.toString())`. -/
def setAutoModeStore (store : Option (List (List Char × List Char))) (enabled : Bool) :
    Option (List (List Char × List Char)) :=
  match store with
  | none => none
  | some kvs => some (assocSet "themeAutoMode".data (if enabled then "true".data else "false".data) kvs)

/-- `getAutoTheme`: dark from 18:00 to 6:00, light otherwise
(`(hour >= 18 || hour < 6) ? 'dark' : 'light'`). -/
def getAutoTheme (hour : Nat) : List Char :=
  if 18 ≤ hour || hour < 6 then "dark".data else "light".data

/-- `applyTheme`: records the new theme and persists it via
`setStoredTheme`.  The DOM attribute write and icon update are effect-free on
the modelled state. -/
def applyTheme (s : ThemeState) (theme : List Char) : ThemeState :=
  { s with theme := theme, store := setStoredTheme s.store theme }

/-- `toggleTheme`: a manual toggle first disables auto mode (flag, stored
flag, interval) when it is on, then flips the theme and applies it. -/
def toggleTheme (s : ThemeState) : ThemeState :=
  let s1 :=
    if s.autoMode then
      { s with autoMode := false, store := setAutoModeStore s.store false, autoCheckRunning := false }
    else s
  let newTheme := if s1.theme = "dark".data then "light".data else "dark".data
  applyTheme s1 newTheme

/-- `toggleAutoMode` at current hour `hour`: flips the flag and persists it;
when turning auto mode on it applies the time-based theme immediately and
starts the periodic check, otherwise it stops the check. -/
def toggleAutoMode (s : ThemeState) (hour : Nat) : ThemeState :=
  let s1 := { s with autoMode := !s.autoMode, store := setAutoModeStore s.store (!s.autoMode) }
  if s1.autoMode then
    let s2 := applyTheme s1 (getAutoTheme hour)
    { s2 with autoCheckRunning := true }
  else
    { s1 with autoCheckRunning := false }

/-- One firing of the interval callback installed by `startAutoThemeCheck`:
it only runs while the interval is installed, re-reads the clock and
re-applies the time-based theme when it changed. -/
def autoThemeTick (s : ThemeState) (hour : Nat) : ThemeState :=
  if s.autoCheckRunning then
    if s.autoMode then
      if getAutoTheme hour ≠ s.theme then applyTheme s (getAutoTheme hour) else s
    else s
  else s

/-! ## Navigation utilities and mobile menu (navigation.js) -/

/-- Possible outcomes of the raw DOM call `context.querySelector(selector)`:
an element is found, no element matches (JS `null`), or the call throws
(e.g. on a syntactically invalid selector). -/
inductive QueryOutcome where
  | found (element : Nat)
  | absent
  | fails
  deriving DecidableEq

/-- The raw DOM query as a fallible computation: `error` models the thrown
exception that `navUtils.querySelector` has to catch. -/
def rawQuerySelector (dom : List Char → QueryOutcome) (sel : List Char) :
    Except (List Char) (Option Nat) :=
  match dom sel with
  | .found e => .ok (some e)
  | .absent => .ok none
  | .fails => .error ("Error querying selector ".data ++ sel)

/-- `navUtils.querySelector`: wraps the raw query in try/catch and returns
`null` both when nothing matches and when the query throws. -/
def navQuerySelector (dom : List Char → QueryOutcome) (sel : List Char) : Option Nat :=
  match rawQuerySelector dom sel with
  | .ok r => r
  | .error _ => none

/-- The part of a `MobileMenu` instance the error-handling claims are about:
the two looked-up elements and the `initialized` flag. -/
structure MenuState where
  menuButton : Option Nat
  navLinks : Option Nat
  menuReady : Bool
  deriving DecidableEq

/-- `new MobileMenu()`: the constructor looks up `.menu-button` and
`.nav-links` through `navUtils.querySelector` and calls `init`, which only
installs the listeners (and sets `initialized`) when both elements were
found; otherwise it logs and leaves the menu uninitialized. -/
def mkMobileMenu (dom : List Char → QueryOutcome) : MenuState :=
  let mb := navQuerySelector dom ".menu-button".data
  let nl := navQuerySelector dom ".nav-links".data
  { menuButton := mb, navLinks := nl, menuReady := mb.isSome && nl.isSome }

/-! ## Notes-metadata maintenance script (scripts/update-file-metadata.js)

The script reads `data/notes-data.json` into `data`, scans `data/notes` for
PDF files, merges new files into the catalog, refreshes size/upload-date
metadata of every material, and writes the catalog back once.

Embedding conventions:
* `root` is the repository root directory (`path.join(__dirname, '..')`),
  so the script's `jsonPath` is `root ++ "/data/notes-data.json"` and paths
  are POSIX-style (`path.sep = '/'`; the `replace(/\\/g, '/')` of the source
  is the identity here).
* The recursive `scanDirectory(notesDir)` walk is represented by the list of
  directory entries it visits in depth-first order, each given by its path
  relative to `root` (`path.relative(path.join(__dirname, '..'), fullPath)`)
  together with its `fs.statSync` data; `scanForNewFiles` folds the per-file
  body of the walk over that list.
* `fs.statSync` inside `updateMaterialMetadata` is a function
  `List Char → Option Stats`; `none` models the ENOENT throw caught by the
  script.
* `console.log` calls and the final `fs.writeFileSync` are recorded in an
  event trace. -/

/-- The slice of `fs.Stats` the script uses: `stats.size` and
`stats.mtime.toISOString()`. -/
structure Stats where
  size : Nat
  mtimeISO : List Char
  deriving DecidableEq

/-- One material record of the catalog. -/
structure Material where
  title : List Char
  description : List Char
  path : List Char
  mtype : List Char
  size : List Char
  uploadDate : List Char
  downloadUrl : List Char
  keywords : List (List Char)
  deriving DecidableEq

/-- One subject, holding its materials. -/
structure Subject where
  name : List Char
  materials : List Material
  deriving DecidableEq

/-- One branch of a semester. -/
structure Branch where
  id : List Char
  subjects : List Subject
  deriving DecidableEq

/-- One semester of the catalog. -/
structure Semester where
  id : Int
  branches : List Branch
  deriving DecidableEq

/-- The JSON catalog `data/notes-data.json`. -/
structure Catalog where
  semesters : List Semester
  deriving DecidableEq

/-- A directory entry visited by the `scanDirectory` walk: its path relative
to the repository root and its stat data. -/
structure ScanFile where
  relPath : List Char
  stats : Stats
  deriving DecidableEq

/-- Observable events of a script run: `console.log` lines and
`fs.writeFileSync` calls (the written JSON is represented by the catalog
value it serializes). -/
inductive Event where
  | log (msg : List Char)
  | write (path : List Char) (content : Catalog)
  deriving DecidableEq

/-- Is this event a file write? -/
def isWriteEvent : Event → Bool
  | .log _ => false
  | .write _ _ => true

/-- All material paths of the catalog in order; this is the set the scanner
collects into `existingPaths` and also the subject of the uniqueness
invariant. -/
def collectMaterialPaths (cat : Catalog) : List (List Char) :=
  cat.semesters.flatMap fun sem =>
    sem.branches.flatMap fun br =>
      br.subjects.flatMap fun sub =>
        sub.materials.map fun m => m.path

/-- Replace the `i`-th element of a list (identity when out of range);
used to model in-place mutation of the nested catalog arrays. -/
def modifyIdx (f : α → α) : Nat → List α → List α
  | _, [] => []
  | 0, x :: xs => f x :: xs
  | i + 1, x :: xs => x :: modifyIdx f i xs

/-- `subject.materials.push(newMaterial)` for the subject at index path
`(i, j, k)` (semester, branch, subject). -/
def insertMaterial (i j k : Nat) (m : Material) (cat : Catalog) : Catalog :=
  { semesters :=
      modifyIdx
        (fun sem =>
          { sem with
            branches :=
              modifyIdx
                (fun br =>
                  { br with
                    subjects :=
                      modifyIdx (fun sub => { sub with materials := sub.materials ++ [m] }) k
                        br.subjects })
                j sem.branches })
        i cat.semesters }

/-- Name of the subject at index path `(i, j, k)`, as used in the
`Added: ... to ...` log line. -/
def subjectNameAt (cat : Catalog) (i j k : Nat) : List Char :=
  match cat.semesters.getD i { id := 0, branches := [] } with
  | sem =>
    match sem.branches.getD j { id := [], subjects := [] } with
    | br => (br.subjects.getD k { name := [], materials := [] }).name

/-- Maximal run of decimal digits at the front. -/
def takeDigits (s : List Char) : List Char := s.takeWhile isDigitChar

/-- Maximal run of roman-numeral letters `i`, `v`, `x` at the front
(the `[ivx]+` group of the module regex, on lower-cased input). -/
def takeIvx (s : List Char) : List Char :=
  s.takeWhile fun c => c = 'i' || c = 'v' || c = 'x'

/-- Attempt of the regex `/(mod|module)\s*(\d+|[ivx]+)/i` at one position of
the (lower-cased) name: the engine first tries the alternative `mod`, then
`module`, each followed by optional whitespace and a digit or roman-numeral
group; the returned string is capture group 2. -/
def matchModAt (s : List Char) : Option (List Char) :=
  let tryTail : List Char → Option (List Char) := fun rest =>
    let rest1 := rest.dropWhile isSpaceChar
    match takeDigits rest1 with
    | [] =>
      match takeIvx rest1 with
      | [] => none
      | run => some run
    | run => some run
  if startsWith "mod".data s then
    match tryTail (s.drop 3) with
    | some g => some g
    | none =>
      if startsWith "module".data s then tryTail (s.drop 6) else none
  else none

/-- Leftmost match of `/(mod|module)\s*(\d+|[ivx]+)/i`, returning capture
group 2. -/
def matchModule : List Char → Option (List Char)
  | [] => none
  | c :: rest =>
    match matchModAt (c :: rest) with
    | some g => some g
    | none => matchModule rest

/-- Attempt of `/unit\s*(\d+)/i` at one position. -/
def matchUnitAt (s : List Char) : Option (List Char) :=
  if startsWith "unit".data s then
    match takeDigits ((s.drop 4).dropWhile isSpaceChar) with
    | [] => none
    | run => some run
  else none

/-- Leftmost match of `/unit\s*(\d+)/i`, returning capture group 1. -/
def matchUnit : List Char → Option (List Char)
  | [] => none
  | c :: rest =>
    match matchUnitAt (c :: rest) with
    | some g => some g
    | none => matchUnit rest

/-- `generateKeywords(filename, subjectName)` from the script. -/
def generateKeywords (filename subjectName : List Char) : List (List Char) :=
  let name := toLowerStr (removeFirst ".pdf".data filename)
  let subjLower := toLowerStr subjectName
  let abbrevKw :=
    if containsSub "computer network".data subjLower then ["cn".data]
    else if containsSub "research methodology".data subjLower then ["rm".data]
    else if containsSub "sepm".data subjLower then ["sepm".data]
    else if containsSub "theory of computation".data subjLower then ["toc".data]
    else if containsSub "dbms".data subjLower then ["dbms".data]
    else if containsSub "ada".data subjLower then ["ada".data]
    else []
  let modKw :=
    if containsSub "mod".data name || containsSub "module".data name then
      match matchModule name with
      | some g => ["mod ".data ++ g]
      | none => []
    else []
  let unitKw :=
    if containsSub "unit".data name then
      match matchUnit name with
      | some g => ["unit ".data ++ g]
      | none => []
    else []
  let labKw := if containsSub "lab".data name then ["lab manual".data] else []
  let notesKw := if containsSub "notes".data name then ["notes".data] else []
  let keywords := abbrevKw ++ modKw ++ unitKw ++ labKw ++ notesKw
  if keywords.isEmpty then [(splitChar ' ' subjLower).headD []] else keywords

/-- `path.basename(filePath, '.pdf')`: last path segment with the `.pdf`
extension removed (the callers only pass names that end in `.pdf`). -/
def basenameNoPdf (p : List Char) : List Char :=
  let base := (splitChar '/' p).getLastD []
  if endsWith ".pdf".data base then base.take (base.length - 4) else base

/-- `createMaterialFromFile(filePath, stats)`.  `relPath` is
`path.relative(path.join(__dirname, '..'), filePath)` with forward slashes;
note that the stored `path`/`downloadUrl` are rebuilt from the part of
`relPath` after the first occurrence of `'data/notes/'`
(`relativePath.split('data/notes/')[1]`, JS yielding the string
`"undefined"` when that index does not exist). -/
def createMaterialFromFile (relPath : List Char) (stats : Stats) : Material :=
  let filename := basenameNoPdf relPath
  let pathParts := splitChar '/' relPath
  let subjectName :=
    let p := if pathParts.length < 2 then [] else pathParts.getD (pathParts.length - 2) []
    if p.isEmpty then "Unknown".data else p
  let tailPart := (splitOnSub "data/notes/".data relPath).getD 1 "undefined".data
  { title := filename
    description := subjectName ++ " notes".data
    path := "../data/notes/".data ++ tailPart
    mtype := "pdf".data
    size := (formatFileSize stats.size).data
    uploadDate := (splitChar 'T' stats.mtimeISO).headD []
    downloadUrl := "../data/notes/".data ++ tailPart
    keywords := generateKeywords filename subjectName }

/-- The fixed alias table of `findSubjectByPath`. -/
def subjectMappings : List (List Char × List (List Char)) :=
  [("computer network".data, ["computer network".data, "cn".data]),
   ("research methadology".data, ["research methodology".data, "rm".data]),
   ("theory of computation".data, ["theory of computation".data, "toc".data]),
   ("operating-system".data, ["operating system".data, "os".data]),
   ("graph-theory".data, ["graph theory".data]),
   ("microcontroller".data, ["microcontroller".data]),
   ("manuals".data, ["lab manual".data]),
   ("question".data, ["question papers".data, "pyq".data]),
   ("syllabus".data, ["syllabus".data]),
   ("pyq".data, ["pyq".data, "question papers".data]),
   ("evs".data, ["evs".data]),
   ("ai".data, ["ai".data]),
   ("sepm".data, ["sepm".data])]

/-- The subject-matching predicate of `findSubjectByPath`: direct name
matches, containment either way, or one of the fixed folder aliases. -/
def subjectMatches (subjectLower : List Char) (sub : Subject) : Bool :=
  let subjectName := toLowerStr sub.name
  subjectName == subjectLower ||
    containsSub subjectLower subjectName ||
    containsSub subjectName subjectLower ||
    subjectMappings.any fun fs =>
      subjectLower == fs.1 && fs.2.any fun al => containsSub al subjectName

/-- `findSubjectByPath(filePath)`, returning the index path
`(semester, branch, subject)` of the matched subject in the catalog (the
source returns the subject object itself and mutates it in place).  The
guards mirror the source: a falsy semester part, branch part or
second-to-last path segment yields `null`, as does a failed lookup at any of
the three levels. -/
def findSubjectByPath (cat : Catalog) (filePath : List Char) : Option (Nat × Nat × Nat) :=
  let pathParts := splitChar '/' filePath
  let semesterMatch := pathParts.find? fun part => startsWith "semester-".data part
  let branchMatch :=
    pathParts.find? fun part =>
      part == "cse".data || part == "ai".data || part == "physics".data
  match semesterMatch, branchMatch with
  | some sem, some br =>
    let subjectMatch :=
      if pathParts.length < 2 then [] else pathParts.getD (pathParts.length - 2) []
    if subjectMatch.isEmpty then none
    else
      match jsParseInt ((splitChar '-' sem).getD 1 []) with
      | none => none
      | some semesterNum =>
        match cat.semesters.findIdx? fun s => s.id == semesterNum with
        | none => none
        | some i =>
          let semester := cat.semesters.getD i { id := 0, branches := [] }
          match semester.branches.findIdx? fun b => b.id == br with
          | none => none
          | some j =>
            let branch := semester.branches.getD j { id := [], subjects := [] }
            let subjectLower := toLowerStr subjectMatch
            match branch.subjects.findIdx? (subjectMatches subjectLower) with
            | none => none
            | some k => some (i, j, k)
  | _, _ => none

/-- Body of the `scanDirectory` walk for one visited entry: directories and
non-PDF files are skipped (`item.endsWith('.pdf')` tests the entry name);
a PDF whose catalog path is not among the pre-collected `existingPaths` is
inserted into the matched subject, or logged as unmatched. -/
def processScanItem (root : List Char) (existing : List (List Char)) (cat : Catalog)
    (f : ScanFile) : Catalog × List Event :=
  let itemName := (splitChar '/' f.relPath).getLastD []
  if endsWith ".pdf".data itemName then
    let materialPath := "../".data ++ f.relPath
    if existing.contains materialPath then (cat, [])
    else
      match findSubjectByPath cat (root ++ "/".data ++ f.relPath) with
      | some (i, j, k) =>
        let newMaterial := createMaterialFromFile f.relPath f.stats
        (insertMaterial i j k newMaterial cat,
         [.log ("Added: ".data ++ newMaterial.title ++ " to ".data ++ subjectNameAt cat i j k)])
      | none => (cat, [.log ("No subject found for: ".data ++ f.relPath)])
  else (cat, [])

/-- Fold of `processScanItem` over the walk order. -/
def scanFiles (root : List Char) (existing : List (List Char)) (files : List ScanFile)
    (cat : Catalog) : Catalog × List Event :=
  match files with
  | [] => (cat, [])
  | f :: rest =>
    let r1 := processScanItem root existing cat f
    let r2 := scanFiles root existing rest r1.1
    (r2.1, r1.2 ++ r2.2)

/-- `scanForNewFiles()`: collects the existing material paths once, then
walks the notes directory (given as the DFS-ordered entry list). -/
def scanForNewFiles (root : List Char) (files : List ScanFile) (cat : Catalog) :
    Catalog × List Event :=
  scanFiles root (collectMaterialPaths cat) files cat

/-- The path rewriting at the top of `updateMaterialMetadata`:
`path.join(__dirname, '..', filePath.substring(3))` for `../data/...` paths,
`path.join(__dirname, '..', filePath.substring(1))` for `/data/...` paths. -/
def resolveMaterialPath (root p : List Char) : List Char :=
  if startsWith "../data/".data p then root ++ "/".data ++ p.drop 3
  else if startsWith "/data/".data p then root ++ p
  else p

/-- `updateMaterialMetadata(material)`: refresh `size` and `uploadDate` from
`fs.statSync`; a missing file (the ENOENT throw) is logged and leaves the
record unchanged. -/
def updateMaterialMetadata (stat : List Char → Option Stats) (root : List Char)
    (m : Material) : Material × List Event :=
  let filePath := resolveMaterialPath root m.path
  match stat filePath with
  | some st =>
    let m1 := { m with
      size := (formatFileSize st.size).data
      uploadDate := (splitChar 'T' st.mtimeISO).headD [] }
    (m1, [.log ("Updated: ".data ++ m.title ++ " - ".data ++ m1.size)])
  | none => (m, [.log ("File not found: ".data ++ filePath)])

/-- `subject.materials.forEach(updateMaterialMetadata)`. -/
def updateMaterials (stat : List Char → Option Stats) (root : List Char) :
    List Material → List Material × List Event
  | [] => ([], [])
  | m :: rest =>
    let r1 := updateMaterialMetadata stat root m
    let r2 := updateMaterials stat root rest
    (r1.1 :: r2.1, r1.2 ++ r2.2)

/-- Update pass over the subjects of one branch. -/
def updateSubjects (stat : List Char → Option Stats) (root : List Char) :
    List Subject → List Subject × List Event
  | [] => ([], [])
  | sub :: rest =>
    let r1 := updateMaterials stat root sub.materials
    let r2 := updateSubjects stat root rest
    ({ sub with materials := r1.1 } :: r2.1, r1.2 ++ r2.2)

/-- Update pass over the branches of one semester. -/
def updateBranches (stat : List Char → Option Stats) (root : List Char) :
    List Branch → List Branch × List Event
  | [] => ([], [])
  | br :: rest =>
    let r1 := updateSubjects stat root br.subjects
    let r2 := updateBranches stat root rest
    ({ br with subjects := r1.1 } :: r2.1, r1.2 ++ r2.2)

/-- The `data.semesters.forEach(... forEach(updateMaterialMetadata))` pass. -/
def updateCatalog (stat : List Char → Option Stats) (root : List Char) (cat : Catalog) :
    Catalog × List Event :=
  let r := go cat.semesters
  ({ semesters := r.1 }, r.2)
where
  go : List Semester → List Semester × List Event
    | [] => ([], [])
    | sem :: rest =>
      let r1 := updateBranches stat root sem.branches
      let r2 := go rest
      ({ sem with branches := r1.1 } :: r2.1, r1.2 ++ r2.2)

/-- `path.join(__dirname, '../data/notes-data.json')`. -/
def jsonFilePath (root : List Char) : List Char := root ++ "/data/notes-data.json".data

/-- The top-level flow of the script: scan for new files, refresh all
metadata, then write the catalog back exactly once and log success. -/
def runMetadataScript (root : List Char) (stat : List Char → Option Stats)
    (files : List ScanFile) (cat : Catalog) : Catalog × List Event :=
  let r1 := scanForNewFiles root files cat
  let r2 := updateCatalog stat root r1.1
  (r2.1,
   r1.2 ++ r2.2 ++
     [.write (jsonFilePath root) r2.1, .log "File metadata updated successfully!".data])

/-! ## Offline cache (offline/offlineCache.js)

`saveOfflineData(key, data)` serializes `data` with `JSON.stringify` and
stores it under `key` in localStorage; `loadOfflineData(key)` reads and
`JSON.parse`s it, returning `null` on a missing key, an empty stored string,
or any thrown error.

JSON values are modelled by the mutually inductive `JVal`/`JArr`/`JObj`
(arrays and objects carry their elements as bespoke list types so that all
recursions stay structural and kernel-reducible).  JS numbers are doubles;
the model restricts JSON numbers to the integers, where `JSON.stringify`
prints plain decimal and round-trips exactly — non-integral doubles are
floating-point territory outside this embedding.  `JSON.parse` is modelled
on the whitespace-free grammar that `JSON.stringify` emits; the real parser
additionally tolerates whitespace and fractional/exponent number forms,
which only enlarges the set of accepted strings. -/

mutual
inductive JVal where
  | null
  | bool (b : Bool)
  | num (n : Int)
  | str (s : List Char)
  | arr (elems : JArr)
  | obj (fields : JObj)
  deriving DecidableEq
inductive JArr where
  | nil
  | cons (hd : JVal) (tl : JArr)
  deriving DecidableEq
inductive JObj where
  | nil
  | cons (key : List Char) (val : JVal) (tl : JObj)
  deriving DecidableEq
end

/-- Lower-case hexadecimal digit, as `JSON.stringify` emits in `\u00XX`
escapes (48 is the code of `0`; 87 + 10 that of `a`). -/
def hexDigitChar (n : Nat) : Char :=
  Char.ofNat (n + (if n < 10 then 48 else 87))

/-- `JSON.stringify` escaping of one string character. -/
def escapeChar (c : Char) : List Char :=
  if c = '"' then ['\\', '"']
  else if c = '\\' then ['\\', '\\']
  else if c = '\x08' then ['\\', 'b']
  else if c = '\x0c' then ['\\', 'f']
  else if c = '\n' then ['\\', 'n']
  else if c = '\r' then ['\\', 'r']
  else if c = '\t' then ['\\', 't']
  else if c.toNat < 32 then
    '\\' :: 'u' :: '0' :: '0' :: hexDigitChar (c.toNat / 16) :: [hexDigitChar (c.toNat % 16)]
  else [c]

/-- `JSON.stringify` escaping of a whole string body. -/
def escapeStr (s : List Char) : List Char := s.flatMap escapeChar

/-- Decimal digits of a natural number, fuel-driven (`fuel > n` suffices). -/
def natToDecAux : Nat → Nat → List Char
  | 0, _ => []
  | fuel + 1, n =>
    if n < 10 then [Char.ofNat ('0'.toNat + n)]
    else natToDecAux fuel (n / 10) ++ [Char.ofNat ('0'.toNat + n % 10)]

/-- Decimal representation of a natural number. -/
def natToDec (n : Nat) : List Char := natToDecAux (n + 1) n

/-- Decimal representation of an integer, as `JSON.stringify` prints
integral doubles. -/
def intToDec (n : Int) : List Char :=
  if n < 0 then '-' :: natToDec n.natAbs else natToDec n.toNat

mutual
/-- `JSON.stringify` (compact form, as called with no spacing argument by
the offline cache). -/
def stringifyVal : JVal → List Char
  | .null => "null".data
  | .bool true => "true".data
  | .bool false => "false".data
  | .num n => intToDec n
  | .str s => '"' :: escapeStr s ++ ['"']
  | .arr xs => '[' :: stringifyArr xs ++ [']']
  | .obj fs => '\x7b' :: stringifyObj fs ++ ['\x7d']
/-- Serialized array elements (without the brackets). -/
def stringifyArr : JArr → List Char
  | .nil => []
  | .cons h t => stringifyVal h ++ stringifyArrTail t
/-- Serialized continuation of an array: a leading comma per element. -/
def stringifyArrTail : JArr → List Char
  | .nil => []
  | .cons h t => ',' :: stringifyVal h ++ stringifyArrTail t
/-- Serialized object members (without the braces). -/
def stringifyObj : JObj → List Char
  | .nil => []
  | .cons k v t => '"' :: escapeStr k ++ '"' :: ':' :: stringifyVal v ++ stringifyObjTail t
/-- Serialized continuation of an object: a leading comma per member. -/
def stringifyObjTail : JObj → List Char
  | .nil => []
  | .cons k v t =>
    ',' :: '"' :: escapeStr k ++ '"' :: ':' :: stringifyVal v ++ stringifyObjTail t
end

/-- Value of one hexadecimal digit; JSON `\uXXXX` escapes allow digits and
letters of either case (codes 48-57, 97-102 and 65-70). -/
def hexVal (c : Char) : Option Nat :=
  let n := c.toNat
  if 48 ≤ n && n ≤ 57 then some (n - 48)
  else if 97 ≤ n && n ≤ 102 then some (n - 87)
  else if 65 ≤ n && n ≤ 70 then some (n - 55)
  else none

/-- String-body parser: consumes up to the closing quote, decoding escapes;
`none` models a `JSON.parse` syntax error. -/
def parseStrAux : List Char → List Char → Option (List Char × List Char)
  | [], _ => none
  | c :: rest, acc =>
    if c = '"' then some (acc.reverse, rest)
    else if c = '\\' then
      match rest with
      | [] => none
      | e :: rest2 =>
        if e = '"' then parseStrAux rest2 ('"' :: acc)
        else if e = '\\' then parseStrAux rest2 ('\\' :: acc)
        else if e = '/' then parseStrAux rest2 ('/' :: acc)
        else if e = 'n' then parseStrAux rest2 ('\n' :: acc)
        else if e = 't' then parseStrAux rest2 ('\t' :: acc)
        else if e = 'r' then parseStrAux rest2 ('\r' :: acc)
        else if e = 'b' then parseStrAux rest2 ('\x08' :: acc)
        else if e = 'f' then parseStrAux rest2 ('\x0c' :: acc)
        else if e = 'u' then
          match rest2 with
          | h1 :: h2 :: h3 :: h4 :: rest3 =>
            match hexVal h1, hexVal h2, hexVal h3, hexVal h4 with
            | some a, some b, some x, some y =>
              parseStrAux rest3 (Char.ofNat ((a * 16 + b) * 256 + (x * 16 + y)) :: acc)
            | _, _, _, _ => none
          | _ => none
        else none
    else if c.toNat < 32 then none
    else parseStrAux rest (c :: acc)

/-- Does the input not begin with a digit?  Separator condition after a
serialized number. -/
def nonDigitStart : List Char → Bool
  | [] => true
  | c :: _ => !isDigitChar c

/-- The fuel-indexed JSON parser: component 1 parses a value, component 2 an
array continuation (after the first element), component 3 an object
continuation.  Structural recursion on the fuel keeps every call
kernel-reducible; `jsonParse` supplies fuel `length + 1`, which is always
sufficient because each fuel step consumes at least one input character. -/
def jsonParsers (fuel : Nat) :
    (List Char → Option (JVal × List Char)) ×
    (List Char → Option (JArr × List Char)) ×
    (List Char → Option (JObj × List Char)) :=
  match fuel with
  | 0 => (fun _ => none, fun _ => none, fun _ => none)
  | fuel + 1 =>
    let P := jsonParsers fuel
    let pv := P.1
    let pa := P.2.1
    let po := P.2.2
    (fun input =>
      match input with
      | [] => none
      | c :: r =>
        if c = 'n' then
          match r with
          | 'u' :: 'l' :: 'l' :: r2 => some (.null, r2)
          | _ => none
        else if c = 't' then
          match r with
          | 'r' :: 'u' :: 'e' :: r2 => some (.bool true, r2)
          | _ => none
        else if c = 'f' then
          match r with
          | 'a' :: 'l' :: 's' :: 'e' :: r2 => some (.bool false, r2)
          | _ => none
        else if c = '"' then
          match parseStrAux r [] with
          | some (s, r1) => some (.str s, r1)
          | none => none
        else if c = '[' then
          match pv r with
          | some (v, r1) =>
            match pa r1 with
            | some (t, r2) => some (.arr (.cons v t), r2)
            | none => none
          | none =>
            match r with
            | ']' :: r1 => some (.arr .nil, r1)
            | _ => none
        else if c = '\x7b' then
          match r with
          | '"' :: r1 =>
            (match parseStrAux r1 [] with
             | some (k, r2) =>
               (match r2 with
                | ':' :: r3 =>
                  (match pv r3 with
                   | some (v, r4) =>
                     (match po r4 with
                      | some (t, r5) => some (.obj (.cons k v t), r5)
                      | none => none)
                   | none => none)
                | _ => none)
             | none => none)
          | '\x7d' :: r1 => some (.obj .nil, r1)
          | _ => none
        else if c = '-' then
          match takeDigits r with
          | [] => none
          | ds => some (.num (-(digitsToNat 0 ds : Int)), r.drop ds.length)
        else if isDigitChar c then
          let ds := takeDigits (c :: r)
          some (.num (digitsToNat 0 ds : Int), (c :: r).drop ds.length)
        else none,
     fun input =>
      match input with
      | ']' :: r => some (.nil, r)
      | ',' :: r =>
        (match pv r with
         | some (v, r1) =>
           (match pa r1 with
            | some (t, r2) => some (.cons v t, r2)
            | none => none)
         | none => none)
      | _ => none,
     fun input =>
      match input with
      | '\x7d' :: r => some (.nil, r)
      | ',' :: '"' :: r =>
        (match parseStrAux r [] with
         | some (k, r1) =>
           (match r1 with
            | ':' :: r2 =>
              (match pv r2 with
               | some (v, r3) =>
                 (match po r3 with
                  | some (t, r4) => some (.cons k v t, r4)
                  | none => none)
               | none => none)
            | _ => none)
         | none => none)
      | _ => none)

/-- `JSON.parse(s)`: parse a full value consuming the entire input;
`none` models the thrown `SyntaxError`. -/
def jsonParse (s : List Char) : Option JVal :=
  match (jsonParsers (s.length + 1)).1 s with
  | some (v, []) => some v
  | _ => none

/-- The browser localStorage seen by the offline cache: either every access
throws (`broken`, e.g. storage disabled or quota exceeded), or it holds a
key-value store. -/
inductive CacheStore where
  | broken
  | avail (entries : List (List Char × List Char))
  deriving DecidableEq

/-- `saveOfflineData(key, data)`: stringify, store, return `true`; a throwing
store is caught, logged, and reported as `false` with the store unchanged. -/
def saveOfflineData (ls : CacheStore) (key : List Char) (data : JVal) :
    CacheStore × Bool :=
  match ls with
  | .broken => (.broken, false)
  | .avail st => (.avail (assocSet key (stringifyVal data) st), true)

/-- `loadOfflineData(key)`: read and parse; a missing key, an empty stored
string (falsy in `data ? JSON.parse(data) : null`) or a parse/storage error
all yield `null`. -/
def loadOfflineData (ls : CacheStore) (key : List Char) : Option JVal :=
  match ls with
  | .broken => none
  | .avail st =>
    match assocGet key st with
    | none => none
    | some s =>
      if s.isEmpty then none
      else
        match jsonParse s with
        | some v => some v
        | none => none

/-! ## Concrete instances used by counterexamples and witnesses -/

/-- A catalog material whose stored path is the bare notes-directory prefix. -/
def c1Material : Material :=
  { title := "old".data, description := "d".data, path := "../data/notes/".data,
    mtype := "pdf".data, size := "1 KB".data, uploadDate := "2024-01-01".data,
    downloadUrl := "../data/notes/".data, keywords := [] }

/-- A one-subject catalog (semester 1, branch `cse`, subject `toc`) holding
`c1Material`; its material paths are pairwise distinct. -/
def c1Catalog : Catalog :=
  { semesters := [{ id := 1,
                    branches := [{ id := "cse".data,
                                   subjects := [{ name := "toc".data,
                                                  materials := [c1Material] }] }] }] }

/-- A scanned PDF living under a nested `data/notes/` directory inside the
notes tree: its walk path is new, but the material record built for it gets
the path `"../data/notes/"`, clashing with `c1Material`. -/
def c1File : ScanFile :=
  { relPath := "data/notes/data/notes/semester-1/cse/toc/x.pdf".data,
    stats := { size := 100, mtimeISO := "2024-05-05T10:00:00.000Z".data } }

/-- A well-placed new PDF used by the amended-claim witness. -/
def c1GoodFile : ScanFile :=
  { relPath := "data/notes/semester-1/cse/toc/y.pdf".data,
    stats := { size := 2048, mtimeISO := "2024-06-06T10:00:00.000Z".data } }

/-- A PDF under the notes directory that matches no subject (no
`semester-...` path component). -/
def c6File : ScanFile :=
  { relPath := "data/notes/x.pdf".data,
    stats := { size := 1, mtimeISO := "2024-01-01T00:00:00.000Z".data } }

/-- A material whose referenced file is missing on disk. -/
def c6Material : Material :=
  { title := "ghost".data, description := "d".data, path := "../data/gone.pdf".data,
    mtype := "pdf".data, size := "1 KB".data, uploadDate := "2024-01-01".data,
    downloadUrl := "../data/gone.pdf".data, keywords := [] }

/-! ## Theorems -/

/-! ### Association-store lemmas -/

theorem assocGet_assocSet_self (k v : List Char) (l : List (List Char × List Char)) :
    assocGet k (assocSet k v l) = some v := by
  induction l with
  | nil => simp [assocSet, assocGet]
  | cons kv rest ih =>
    obtain ⟨k1, v1⟩ := kv
    by_cases h : k1 = k
    · simp [assocSet, assocGet, h]
    · simp [assocSet, assocGet, h, ih]

theorem assocGet_assocSet_ne (k k2 v : List Char) (l : List (List Char × List Char))
    (h : k2 ≠ k) : assocGet k (assocSet k2 v l) = assocGet k l := by
  induction l with
  | nil => simp [assocSet, assocGet, h]
  | cons kv rest ih =>
    obtain ⟨k1, v1⟩ := kv
    by_cases h1 : k1 = k2
    · subst h1
      simp [assocSet, assocGet, h]
    · by_cases h2 : k1 = k
      · subst h2
        simp [assocSet, assocGet, h1]
      · simp [assocSet, assocGet, h1, h2, ih]

/-- C5: formatFileSize maps 0 to the string "0 Bytes" and 1024 to the
string "1 KB". -/
theorem formatFileSizeZeroAndKilobyte :
    formatFileSize 0 = "0 Bytes" ∧ formatFileSize 1024 = "1 KB" := by
  decide

/-- C2: while auto-mode is on, the auto-theme computation picks "dark"
exactly for hours h with h ≥ 18 or h < 6 and "light" for all other hours,
and both the immediate application when auto-mode is enabled
(`toggleAutoMode`) and each periodic re-evaluation (`autoThemeTick`) apply
exactly this rule. -/
theorem autoThemeHourRule (hour : Nat) (s1 s2 : ThemeState)
    (h1 : s1.autoMode = false) (h2 : s2.autoMode = true)
    (h3 : s2.autoCheckRunning = true) :
    (getAutoTheme hour = "dark".data ↔ (18 ≤ hour ∨ hour < 6)) ∧
    (getAutoTheme hour = "light".data ↔ ¬(18 ≤ hour ∨ hour < 6)) ∧
    (toggleAutoMode s1 hour).autoMode = true ∧
    (toggleAutoMode s1 hour).theme = getAutoTheme hour ∧
    (autoThemeTick s2 hour).theme = getAutoTheme hour := by
  refine ⟨?_, ?_, ?_, ?_, ?_⟩
  · unfold getAutoTheme
    by_cases h : 18 ≤ hour ∨ hour < 6 <;> simp [h]
  · unfold getAutoTheme
    by_cases h : 18 ≤ hour ∨ hour < 6 <;> simp [h]
  · simp [toggleAutoMode, applyTheme, h1]
  · simp [toggleAutoMode, applyTheme, h1]
  · unfold autoThemeTick
    rw [h2, h3]
    by_cases h : getAutoTheme hour ≠ s2.theme
    · simp [h, applyTheme]
    · simp only [ne_eq, not_not] at h
      simp [h]

theorem autoThemeHourRuleCheck :
    (getAutoTheme 20 = "dark".data ↔ (18 ≤ 20 ∨ 20 < 6)) ∧
    (getAutoTheme 20 = "light".data ↔ ¬(18 ≤ 20 ∨ 20 < 6)) ∧
    (toggleAutoMode ⟨some [], "light".data, false, false⟩ 20).autoMode = true ∧
    (toggleAutoMode ⟨some [], "light".data, false, false⟩ 20).theme = getAutoTheme 20 ∧
    (autoThemeTick ⟨some [], "light".data, true, true⟩ 20).theme = getAutoTheme 20 :=
  autoThemeHourRule 20 ⟨some [], "light".data, false, false⟩
    ⟨some [], "light".data, true, true⟩ rfl rfl rfl

/-- C3: from any state whose theme is one of the two theme strings,
toggling twice restores the original theme value. -/
theorem toggleThemeTwiceRestores (s : ThemeState)
    (h : s.theme = "dark".data ∨ s.theme = "light".data) :
    (toggleTheme (toggleTheme s)).theme = s.theme := by
  by_cases ha : s.autoMode <;>
    rcases h with h | h <;>
      simp [toggleTheme, applyTheme, ha, h]

theorem toggleThemeTwiceRestoresCheck :
    (toggleTheme (toggleTheme ⟨some [], "dark".data, false, false⟩)).theme = "dark".data :=
  toggleThemeTwiceRestores ⟨some [], "dark".data, false, false⟩ (Or.inl rfl)

/-- C4: a manual toggle overrides auto-mode: from any state with auto-mode
enabled (and, for the persisted flag, a working localStorage), `toggleTheme`
clears the auto-mode flag, stores "false" under `themeAutoMode`, stops the
periodic check, and flips the theme that was current before the call. -/
theorem manualToggleOverridesAuto (s : ThemeState) (kvs : List (List Char × List Char))
    (h : s.autoMode = true) (hs : s.store = some kvs) :
    (toggleTheme s).autoMode = false ∧
    (toggleTheme s).autoCheckRunning = false ∧
    assocGet "themeAutoMode".data ((toggleTheme s).store.getD []) = some "false".data ∧
    getAutoMode (toggleTheme s).store = false ∧
    (toggleTheme s).theme = (if s.theme = "dark".data then "light".data else "dark".data) := by
  have hstore :
      (toggleTheme s).store =
        some (assocSet "theme".data
          (if s.theme = "dark".data then "light".data else "dark".data)
          (assocSet "themeAutoMode".data "false".data kvs)) := by
    simp [toggleTheme, applyTheme, setStoredTheme, setAutoModeStore, h, hs]
  have hget : assocGet "themeAutoMode".data ((toggleTheme s).store.getD []) =
      some "false".data := by
    rw [hstore]
    simp only [Option.getD_some]
    rw [assocGet_assocSet_ne _ _ _ _ (by decide), assocGet_assocSet_self]
  refine ⟨by simp [toggleTheme, applyTheme, h], by simp [toggleTheme, applyTheme, h], hget, ?_,
    by simp [toggleTheme, applyTheme, h]⟩
  rw [hstore]
  simp only [getAutoMode]
  rw [assocGet_assocSet_ne _ _ _ _ (by decide), assocGet_assocSet_self]
  decide

theorem manualToggleOverridesAutoCheck :
    (toggleTheme ⟨some [], "dark".data, true, true⟩).autoMode = false ∧
    (toggleTheme ⟨some [], "dark".data, true, true⟩).autoCheckRunning = false ∧
    assocGet "themeAutoMode".data
        ((toggleTheme ⟨some [], "dark".data, true, true⟩).store.getD []) = some "false".data ∧
    getAutoMode (toggleTheme ⟨some [], "dark".data, true, true⟩).store = false ∧
    (toggleTheme ⟨some [], "dark".data, true, true⟩).theme =
      (if ("dark".data : List Char) = "dark".data then "light".data else "dark".data) :=
  manualToggleOverridesAuto ⟨some [], "dark".data, true, true⟩ [] rfl rfl

/-- C8: storage and DOM-query failures are caught, not propagated: a raw
query that throws is turned into `null` by `navUtils.querySelector`; a
throwing localStorage makes `getStoredTheme` return `null` and leaves
`setStoredTheme` a no-op returning normally; and a `MobileMenu` built on a
document missing either required element simply does not initialize. -/
theorem uiFailuresAreCaught (dom dom2 : List Char → QueryOutcome) (sel theme : List Char)
    (hq : dom sel = .fails)
    (hm : (mkMobileMenu dom2).menuButton = none ∨ (mkMobileMenu dom2).navLinks = none) :
    rawQuerySelector dom sel = .error ("Error querying selector ".data ++ sel) ∧
    navQuerySelector dom sel = none ∧
    getStoredTheme none = none ∧
    setStoredTheme none theme = none ∧
    (mkMobileMenu dom2).menuReady = false := by
  refine ⟨by simp [rawQuerySelector, hq], by simp [navQuerySelector, rawQuerySelector, hq],
    rfl, rfl, ?_⟩
  have hready : (mkMobileMenu dom2).menuReady =
      ((mkMobileMenu dom2).menuButton.isSome && (mkMobileMenu dom2).navLinks.isSome) := rfl
  rcases hm with hm | hm <;> rw [hready, hm] <;> simp

theorem uiFailuresAreCaughtCheck :
    rawQuerySelector (fun _ => .fails) ".menu-button".data =
      .error ("Error querying selector ".data ++ ".menu-button".data) ∧
    navQuerySelector (fun _ => .fails) ".menu-button".data = none ∧
    getStoredTheme none = none ∧
    setStoredTheme none "dark".data = none ∧
    (mkMobileMenu fun _ => .absent).menuReady = false :=
  uiFailuresAreCaught (fun _ => .fails) (fun _ => .absent) ".menu-button".data "dark".data rfl
    (Or.inl rfl)

/-- C10: `updateMaterialMetadata` only touches the `size` and `uploadDate`
fields: title, description, path, type, downloadUrl and keywords are
returned unchanged whether or not the referenced file exists. -/
theorem updateMetadataFrame (stat : List Char → Option Stats) (root : List Char)
    (m : Material) :
    (updateMaterialMetadata stat root m).1.title = m.title ∧
    (updateMaterialMetadata stat root m).1.description = m.description ∧
    (updateMaterialMetadata stat root m).1.path = m.path ∧
    (updateMaterialMetadata stat root m).1.mtype = m.mtype ∧
    (updateMaterialMetadata stat root m).1.downloadUrl = m.downloadUrl ∧
    (updateMaterialMetadata stat root m).1.keywords = m.keywords := by
  unfold updateMaterialMetadata
  cases h : stat (resolveMaterialPath root m.path) <;> simp [h]

/-! ### Event-trace lemmas for the metadata script -/

theorem processScanItem_logs_only (root : List Char) (existing : List (List Char))
    (cat : Catalog) (f : ScanFile) :
    ((processScanItem root existing cat f).2).all (fun e => !isWriteEvent e) = true := by
  simp only [processScanItem]
  split <;> (try rfl) <;> split <;> (try rfl) <;> split <;> rfl

theorem scanFiles_logs_only (root : List Char) (existing : List (List Char))
    (files : List ScanFile) :
    ∀ cat : Catalog,
      ((scanFiles root existing files cat).2).all (fun e => !isWriteEvent e) = true := by
  induction files with
  | nil => intro cat; rfl
  | cons f rest ih =>
    intro cat
    simp [scanFiles, List.all_append, processScanItem_logs_only, ih]

theorem updateMaterialMetadata_logs_only (stat : List Char → Option Stats)
    (root : List Char) (m : Material) :
    ((updateMaterialMetadata stat root m).2).all (fun e => !isWriteEvent e) = true := by
  cases h : stat (resolveMaterialPath root m.path) <;>
    simp [updateMaterialMetadata, h, isWriteEvent]

theorem updateMaterials_logs_only (stat : List Char → Option Stats) (root : List Char)
    (ms : List Material) :
    ((updateMaterials stat root ms).2).all (fun e => !isWriteEvent e) = true := by
  induction ms with
  | nil => rfl
  | cons m rest ih =>
    simp [updateMaterials, List.all_append, updateMaterialMetadata_logs_only, ih]

theorem updateSubjects_logs_only (stat : List Char → Option Stats) (root : List Char)
    (subs : List Subject) :
    ((updateSubjects stat root subs).2).all (fun e => !isWriteEvent e) = true := by
  induction subs with
  | nil => rfl
  | cons sub rest ih =>
    simp [updateSubjects, List.all_append, updateMaterials_logs_only, ih]

theorem updateBranches_logs_only (stat : List Char → Option Stats) (root : List Char)
    (brs : List Branch) :
    ((updateBranches stat root brs).2).all (fun e => !isWriteEvent e) = true := by
  induction brs with
  | nil => rfl
  | cons br rest ih =>
    simp [updateBranches, List.all_append, updateSubjects_logs_only, ih]

theorem updateCatalogGo_logs_only (stat : List Char → Option Stats) (root : List Char)
    (sems : List Semester) :
    ((updateCatalog.go stat root sems).2).all (fun e => !isWriteEvent e) = true := by
  induction sems with
  | nil => rfl
  | cons sem rest ih =>
    simp [updateCatalog.go, List.all_append, updateBranches_logs_only, ih]

theorem updateCatalog_logs_only (stat : List Char → Option Stats) (root : List Char)
    (cat : Catalog) :
    ((updateCatalog stat root cat).2).all (fun e => !isWriteEvent e) = true := by
  simp [updateCatalog, updateCatalogGo_logs_only]

theorem no_write_filter_nil (l : List Event)
    (h : l.all (fun e => !isWriteEvent e) = true) : l.filter isWriteEvent = [] := by
  rw [List.filter_eq_nil_iff]
  intro e he
  have := (List.all_eq_true.mp h) e he
  simp at this
  simp [this]

/-- C7: the script writes the catalog file exactly once: its event trace is
the scan logs, then the update logs, then the single write of the fully
processed catalog followed by the success log; neither phase emits a write,
so no intermediate catalog state ever reaches the file. -/
theorem metadataScriptSingleFinalWrite (root : List Char) (stat : List Char → Option Stats)
    (files : List ScanFile) (cat : Catalog) :
    (runMetadataScript root stat files cat).2 =
      (scanForNewFiles root files cat).2 ++
        (updateCatalog stat root (scanForNewFiles root files cat).1).2 ++
        [Event.write (jsonFilePath root) (runMetadataScript root stat files cat).1,
         Event.log "File metadata updated successfully!".data] ∧
    ((scanForNewFiles root files cat).2).all (fun e => !isWriteEvent e) = true ∧
    ((updateCatalog stat root (scanForNewFiles root files cat).1).2).all
        (fun e => !isWriteEvent e) = true ∧
    (runMetadataScript root stat files cat).2.filter isWriteEvent =
      [Event.write (jsonFilePath root) (runMetadataScript root stat files cat).1] := by
  have hscan : ((scanForNewFiles root files cat).2).all (fun e => !isWriteEvent e) = true :=
    scanFiles_logs_only root (collectMaterialPaths cat) files cat
  have hupd := updateCatalog_logs_only stat root (scanForNewFiles root files cat).1
  refine ⟨rfl, hscan, hupd, ?_⟩
  show ((scanForNewFiles root files cat).2 ++
      (updateCatalog stat root (scanForNewFiles root files cat).1).2 ++
      [Event.write (jsonFilePath root) (runMetadataScript root stat files cat).1,
       Event.log "File metadata updated successfully!".data]).filter isWriteEvent = _
  rw [List.filter_append, List.filter_append, no_write_filter_nil _ hscan,
    no_write_filter_nil _ hupd]
  simp [isWriteEvent]

/-- C6: the script logs problem entries and keeps going: a PDF matching no
subject only contributes its log line, the rest of the walk proceeding on
the unchanged catalog with identical results; and a material whose file is
missing is logged and left unchanged while every other material of the list
is still processed. -/
theorem metadataScriptContinuesOnErrors
    (root : List Char) (existing : List (List Char)) (cat : Catalog) (f : ScanFile)
    (rest : List ScanFile) (stat : List Char → Option Stats)
    (ms1 ms2 : List Material) (m : Material)
    (hpdf : endsWith ".pdf".data ((splitChar '/' f.relPath).getLastD []) = true)
    (hnew : existing.contains ("../".data ++ f.relPath) = false)
    (hmatch : findSubjectByPath cat (root ++ "/".data ++ f.relPath) = none)
    (hmiss : stat (resolveMaterialPath root m.path) = none) :
    scanFiles root existing (f :: rest) cat =
      ((scanFiles root existing rest cat).1,
        Event.log ("No subject found for: ".data ++ f.relPath) ::
          (scanFiles root existing rest cat).2) ∧
    updateMaterials stat root (ms1 ++ m :: ms2) =
      ((updateMaterials stat root ms1).1 ++ m :: (updateMaterials stat root ms2).1,
        (updateMaterials stat root ms1).2 ++
          Event.log ("File not found: ".data ++ resolveMaterialPath root m.path) ::
            (updateMaterials stat root ms2).2) := by
  constructor
  · have hp : processScanItem root existing cat f =
        (cat, [Event.log ("No subject found for: ".data ++ f.relPath)]) := by
      simp only [processScanItem]
      rw [if_pos hpdf, if_neg (by rw [hnew]; decide), hmatch]
    simp [scanFiles, hp]
  · induction ms1 with
    | nil =>
      have step : updateMaterials stat root ([] ++ m :: ms2) =
          ((updateMaterialMetadata stat root m).1 :: (updateMaterials stat root ms2).1,
            (updateMaterialMetadata stat root m).2 ++ (updateMaterials stat root ms2).2) := rfl
      rw [step]
      have hm : updateMaterialMetadata stat root m =
          (m, [Event.log ("File not found: ".data ++ resolveMaterialPath root m.path)]) := by
        simp only [updateMaterialMetadata, hmiss]
      rw [hm]
      rfl
    | cons a ms1 ih =>
      have step : updateMaterials stat root ((a :: ms1) ++ m :: ms2) =
          ((updateMaterialMetadata stat root a).1 ::
              (updateMaterials stat root (ms1 ++ m :: ms2)).1,
            (updateMaterialMetadata stat root a).2 ++
              (updateMaterials stat root (ms1 ++ m :: ms2)).2) := rfl
      have step2 : updateMaterials stat root (a :: ms1) =
          ((updateMaterialMetadata stat root a).1 :: (updateMaterials stat root ms1).1,
            (updateMaterialMetadata stat root a).2 ++ (updateMaterials stat root ms1).2) := rfl
      rw [step, ih, step2]
      simp [List.cons_append, List.append_assoc]

theorem metadataScriptContinuesOnErrorsCheck :
    scanFiles "/r".data [] [c6File] { semesters := [] } =
      ((scanFiles "/r".data [] [] { semesters := [] }).1,
        Event.log ("No subject found for: ".data ++ c6File.relPath) ::
          (scanFiles "/r".data [] [] { semesters := [] }).2) ∧
    updateMaterials (fun _ => none) "/r".data ([] ++ c6Material :: []) =
      ((updateMaterials (fun _ => none) "/r".data []).1 ++
          c6Material :: (updateMaterials (fun _ => none) "/r".data []).1,
        (updateMaterials (fun _ => none) "/r".data []).2 ++
          Event.log
              ("File not found: ".data ++ resolveMaterialPath "/r".data c6Material.path) ::
            (updateMaterials (fun _ => none) "/r".data []).2) :=
  metadataScriptContinuesOnErrors "/r".data [] { semesters := [] } c6File [] (fun _ => none)
    [] [] c6Material (by decide) (by decide) (by decide) rfl

/-! ### Path-uniqueness analysis of the scanner (C1) -/

theorem contains_false_not_mem {l : List (List Char)} {a : List Char}
    (h : l.contains a = false) : a ∉ l := by
  simpa using h

theorem updateMaterialMetadata_fst_path (stat : List Char → Option Stats)
    (root : List Char) (m : Material) :
    (updateMaterialMetadata stat root m).1.path = m.path := by
  unfold updateMaterialMetadata
  cases h : stat (resolveMaterialPath root m.path) <;> simp [h]

theorem updateMaterials_paths (stat : List Char → Option Stats) (root : List Char)
    (ms : List Material) :
    ((updateMaterials stat root ms).1).map (fun m => m.path) =
      ms.map (fun m => m.path) := by
  induction ms with
  | nil => rfl
  | cons m rest ih =>
    simp [updateMaterials, updateMaterialMetadata_fst_path, ih]

theorem updateSubjects_paths (stat : List Char → Option Stats) (root : List Char)
    (subs : List Subject) :
    ((updateSubjects stat root subs).1).flatMap
        (fun sub => sub.materials.map fun m => m.path) =
      subs.flatMap (fun sub => sub.materials.map fun m => m.path) := by
  induction subs with
  | nil => rfl
  | cons sub rest ih =>
    simp [updateSubjects, updateMaterials_paths, ih]

theorem updateBranches_paths (stat : List Char → Option Stats) (root : List Char)
    (brs : List Branch) :
    ((updateBranches stat root brs).1).flatMap
        (fun br => br.subjects.flatMap fun sub => sub.materials.map fun m => m.path) =
      brs.flatMap
        (fun br => br.subjects.flatMap fun sub => sub.materials.map fun m => m.path) := by
  induction brs with
  | nil => rfl
  | cons br rest ih =>
    simp [updateBranches, ih]
    exact updateSubjects_paths stat root br.subjects

theorem updateCatalogGo_paths (stat : List Char → Option Stats) (root : List Char)
    (sems : List Semester) :
    ((updateCatalog.go stat root sems).1).flatMap
        (fun sem => sem.branches.flatMap fun br =>
          br.subjects.flatMap fun sub => sub.materials.map fun m => m.path) =
      sems.flatMap
        (fun sem => sem.branches.flatMap fun br =>
          br.subjects.flatMap fun sub => sub.materials.map fun m => m.path) := by
  induction sems with
  | nil => rfl
  | cons sem rest ih =>
    simp [updateCatalog.go, ih]
    exact updateBranches_paths stat root sem.branches

theorem collect_updateCatalog (stat : List Char → Option Stats) (root : List Char)
    (cat : Catalog) :
    collectMaterialPaths (updateCatalog stat root cat).1 = collectMaterialPaths cat := by
  simp only [collectMaterialPaths, updateCatalog]
  exact updateCatalogGo_paths stat root cat.semesters

theorem flatMap_modifyIdx_perm {α β : Type} (g : α → List β) (f : α → α) (ex : List β)
    (hf : ∀ x, ((g (f x)).Perm (g x ++ ex)) ∨ g (f x) = g x) :
    ∀ (i : Nat) (l : List α),
      ((modifyIdx f i l).flatMap g).Perm (l.flatMap g ++ ex) ∨
        (modifyIdx f i l).flatMap g = l.flatMap g := by
  intro i l
  induction l generalizing i with
  | nil => right; cases i <;> rfl
  | cons x xs ih =>
    cases i with
    | zero =>
      rcases hf x with hx | hx
      · left
        simp only [modifyIdx, List.flatMap_cons]
        have step1 : (g (f x) ++ xs.flatMap g).Perm ((g x ++ ex) ++ xs.flatMap g) :=
          hx.append_right _
        have step2 : ((g x ++ ex) ++ xs.flatMap g).Perm (g x ++ (xs.flatMap g ++ ex)) := by
          rw [List.append_assoc]
          exact List.Perm.append_left _ List.perm_append_comm
        have step3 : (g x ++ (xs.flatMap g ++ ex)).Perm ((g x ++ xs.flatMap g) ++ ex) := by
          rw [List.append_assoc]
        exact (step1.trans step2).trans step3
      · right
        simp only [modifyIdx, List.flatMap_cons, hx]
    | succ i =>
      rcases ih i with h | h
      · left
        simp only [modifyIdx, List.flatMap_cons]
        have step1 : (g x ++ (modifyIdx f i xs).flatMap g).Perm
            (g x ++ (xs.flatMap g ++ ex)) := List.Perm.append_left _ h
        have step2 : (g x ++ (xs.flatMap g ++ ex)).Perm ((g x ++ xs.flatMap g) ++ ex) := by
          rw [List.append_assoc]
        exact step1.trans step2
      · right
        simp only [modifyIdx, List.flatMap_cons, h]

theorem collect_insertMaterial (i j k : Nat) (m : Material) (cat : Catalog) :
    (collectMaterialPaths (insertMaterial i j k m cat)).Perm
        (collectMaterialPaths cat ++ [m.path]) ∨
      collectMaterialPaths (insertMaterial i j k m cat) = collectMaterialPaths cat := by
  simp only [collectMaterialPaths, insertMaterial]
  exact flatMap_modifyIdx_perm _ _ [m.path]
    (fun sem => flatMap_modifyIdx_perm _ _ [m.path]
      (fun br => flatMap_modifyIdx_perm _ _ [m.path]
        (fun sub => Or.inl (by
          rw [show ({ sub with materials := sub.materials ++ [m] } : Subject).materials =
            sub.materials ++ [m] from rfl, List.map_append]
          exact List.Perm.refl _))
        k br.subjects)
      j sem.branches)
    i cat.semesters

theorem containsSub_cons_false {sep : List Char} {c : Char} {rest : List Char}
    (h : containsSub sep (c :: rest) = false) :
    sep.isPrefixOf (c :: rest) = false ∧ containsSub sep rest = false := by
  simpa [containsSub, Bool.or_eq_false_iff] using h

theorem isPrefixOf_append_self (l t : List Char) : l.isPrefixOf (l ++ t) = true := by
  induction l with
  | nil => simp [List.isPrefixOf]
  | cons c rest ih => simp [List.isPrefixOf, ih]

theorem splitOnAux_no_occurrence (sep : List Char) :
    ∀ (fuel : Nat) (s acc : List Char), s.length ≤ fuel →
      containsSub sep s = false → splitOnAux sep fuel s acc = [acc.reverse ++ s] := by
  intro fuel
  induction fuel with
  | zero =>
    intro s acc hlen hc
    have hs : s = [] := List.eq_nil_of_length_eq_zero (Nat.le_zero.mp hlen)
    subst hs
    simp [splitOnAux]
  | succ fuel ih =>
    intro s acc hlen hc
    cases s with
    | nil => simp [splitOnAux]
    | cons c rest =>
      obtain ⟨h1, h2⟩ := containsSub_cons_false hc
      simp only [splitOnAux]
      rw [if_neg (by rw [h1]; decide)]
      rw [ih rest (c :: acc) (by simp only [List.length_cons] at hlen; omega) h2]
      simp

theorem splitOnSub_leading_sep (sep s : List Char) (hne : sep ≠ [])
    (h : containsSub sep s = false) : splitOnSub sep (sep ++ s) = [[], s] := by
  unfold splitOnSub
  cases sep with
  | nil => exact absurd rfl hne
  | cons c0 sep1 =>
    have hlen : (c0 :: sep1 ++ s).length + 1 = ((sep1 ++ s).length + 1) + 1 := by simp
    rw [hlen]
    simp only [splitOnAux]
    rw [if_pos (show (c0 :: sep1).isPrefixOf (c0 :: List.append sep1 s) = true from
      isPrefixOf_append_self (c0 :: sep1) s)]
    have hdrop : List.drop ((c0 :: sep1).length - 1) (List.append sep1 s) = s := by
      simp only [List.length_cons, Nat.add_sub_cancel]
      exact List.drop_left sep1 s
    rw [hdrop]
    rw [splitOnAux_no_occurrence (c0 :: sep1) ((sep1 ++ s).length + 1) s []
      (by simp only [List.length_append]; omega) h]
    rfl

theorem createMaterial_path (relPath : List Char) (stats : Stats) (s : List Char)
    (hrel : relPath = "data/notes/".data ++ s)
    (hno : containsSub "data/notes/".data s = false) :
    (createMaterialFromFile relPath stats).path = "../".data ++ relPath := by
  subst hrel
  show "../data/notes/".data ++
      ((splitOnSub "data/notes/".data ("data/notes/".data ++ s)).getD 1 "undefined".data) =
    "../".data ++ ("data/notes/".data ++ s)
  rw [splitOnSub_leading_sep _ _ (by decide) hno]
  rw [show ("../data/notes/".data : List Char) = "../".data ++ "data/notes/".data by decide]
  simp [List.getD, List.append_assoc]

theorem processScanItem_fst (root : List Char) (existing : List (List Char))
    (cat : Catalog) (f : ScanFile) :
    (processScanItem root existing cat f).1 = cat ∨
      (existing.contains ("../".data ++ f.relPath) = false ∧
        ∃ i j k, (processScanItem root existing cat f).1 =
          insertMaterial i j k (createMaterialFromFile f.relPath f.stats) cat) := by
  simp only [processScanItem]
  by_cases h1 : endsWith ".pdf".data ((splitChar '/' f.relPath).getLastD []) = true
  · rw [if_pos h1]
    by_cases h2 : existing.contains ("../".data ++ f.relPath) = true
    · rw [if_pos h2]
      left; rfl
    · rw [if_neg h2]
      rcases h3 : findSubjectByPath cat (root ++ "/".data ++ f.relPath) with _ | ⟨i, j, k⟩
      · left; rfl
      · right
        exact ⟨Bool.not_eq_true _ ▸ Bool.of_not_eq_true h2, i, j, k, rfl⟩
  · rw [if_neg h1]
    left; rfl

theorem scanFiles_nodup (root : List Char) (existing : List (List Char)) :
    ∀ (files : List ScanFile) (cat : Catalog),
      (collectMaterialPaths cat).Nodup →
      ((files.map fun f => f.relPath).Nodup) →
      (∀ f ∈ files, startsWith "data/notes/".data f.relPath = true ∧
          containsSub "data/notes/".data (f.relPath.drop ("data/notes/".data).length) =
            false) →
      (∀ f ∈ files, existing.contains ("../".data ++ f.relPath) = false →
          ("../".data ++ f.relPath) ∉ collectMaterialPaths cat) →
      (collectMaterialPaths (scanFiles root existing files cat).1).Nodup := by
  intro files
  induction files with
  | nil =>
    intro cat hcat _ _ _
    exact hcat
  | cons f rest ih =>
    intro cat hcat hdist hshape hfresh
    have hstep : (scanFiles root existing (f :: rest) cat).1 =
        (scanFiles root existing rest (processScanItem root existing cat f).1).1 := rfl
    rw [hstep]
    have hdist1 : ((rest.map fun f => f.relPath).Nodup) := (List.nodup_cons.mp (by
      simpa using hdist)).2
    have hnotin : f.relPath ∉ rest.map fun g => g.relPath := (List.nodup_cons.mp (by
      simpa using hdist)).1
    rcases processScanItem_fst root existing cat f with hp | ⟨hnewf, i, j, k, hp⟩
    · rw [hp]
      exact ih cat hcat hdist1 (fun g hg => hshape g (List.mem_cons_of_mem _ hg))
        (fun g hg => hfresh g (List.mem_cons_of_mem _ hg))
    · -- the file is inserted; its stored path is its walk path
      obtain ⟨hpref, hno⟩ := hshape f (List.mem_cons_self _ _)
      obtain ⟨t, ht⟩ := List.isPrefixOf_iff_prefix.mp hpref
      have hs : f.relPath.drop ("data/notes/".data).length = t := by
        rw [← ht]
        exact List.drop_left _ _
      have hrel : f.relPath = "data/notes/".data ++ t := ht.symm
      have hmpath : (createMaterialFromFile f.relPath f.stats).path =
          "../".data ++ f.relPath :=
        createMaterial_path f.relPath f.stats t hrel (hs ▸ hno)
      have hfresh_f : ("../".data ++ f.relPath) ∉ collectMaterialPaths cat :=
        hfresh f (List.mem_cons_self _ _) hnewf
      rcases collect_insertMaterial i j k (createMaterialFromFile f.relPath f.stats) cat
        with hperm | heq
      · have hmem : ∀ p, p ∈ collectMaterialPaths
            (insertMaterial i j k (createMaterialFromFile f.relPath f.stats) cat) ↔
            (p ∈ collectMaterialPaths cat ∨ p = "../".data ++ f.relPath) := by
          intro p
          rw [hperm.mem_iff]
          simp [hmpath]
        have hnodup2 : (collectMaterialPaths
            (insertMaterial i j k (createMaterialFromFile f.relPath f.stats) cat)).Nodup := by
          refine hperm.nodup_iff.mpr ?_
          rw [List.nodup_append]
          refine ⟨hcat, List.nodup_singleton _, ?_⟩
          intro a ha hb
          rw [List.mem_singleton] at hb
          subst hb
          rw [hmpath] at ha
          exact hfresh_f ha
        rw [hp]
        refine ih _ hnodup2 hdist1 (fun g hg => hshape g (List.mem_cons_of_mem _ hg))
          (fun g hg hgc => ?_)
        rw [hmem]
        rintro (hin | hin)
        · exact hfresh g (List.mem_cons_of_mem _ hg) hgc hin
        · have : g.relPath = f.relPath := by
            have := hin
            rwa [List.append_cancel_left_eq] at this
          exact hnotin (this ▸ List.mem_map_of_mem (fun g => g.relPath) hg)
      · rw [hp, ]
        refine ih _ (heq ▸ hcat) hdist1 (fun g hg => hshape g (List.mem_cons_of_mem _ hg))
          (fun g hg hgc => ?_)
        rw [heq]
        exact hfresh g (List.mem_cons_of_mem _ hg) hgc

/-- C1 counterexample: with the catalog `c1Catalog` (whose material paths
are pairwise distinct) and the single scanned file `c1File`, the scanner
inserts a material whose `path` equals the path of a material already in the
catalog, and the catalog written back holds that path twice.  The walk path
`../data/notes/data/notes/semester-1/cse/toc/x.pdf` is checked against
`existingPaths`, but the record is stored under
`'../data/notes/' + relativePath.split('data/notes/')[1]`, which collapses
to `"../data/notes/"` for a file inside a nested `data/notes` directory. -/
theorem scanDuplicatePathCounterexample :
    (collectMaterialPaths c1Catalog).Nodup ∧
    collectMaterialPaths (scanForNewFiles "/r".data [c1File] c1Catalog).1 =
      ["../data/notes/".data, "../data/notes/".data] ∧
    ¬ (collectMaterialPaths
        (runMetadataScript "/r".data (fun _ => none) [c1File] c1Catalog).1).Nodup := by
  refine ⟨by decide, by decide, by decide⟩

/-- C1 (amended): if the starting catalog's material paths are pairwise
distinct, the scanned files have pairwise distinct paths, and every scanned
file sits directly below the notes directory (its repository-relative path
starts with `data/notes/` and contains no further occurrence of
`data/notes/`), then the catalog the script writes back has pairwise
distinct material paths; in particular no inserted material duplicates an
existing path. -/
theorem scanUniquePathsAmended (root : List Char) (stat : List Char → Option Stats)
    (files : List ScanFile) (cat : Catalog)
    (hcat : (collectMaterialPaths cat).Nodup)
    (hdist : ((files.map fun f => f.relPath).Nodup))
    (hshape : ∀ f ∈ files, startsWith "data/notes/".data f.relPath = true ∧
        containsSub "data/notes/".data (f.relPath.drop ("data/notes/".data).length) =
          false) :
    (collectMaterialPaths (runMetadataScript root stat files cat).1).Nodup := by
  have hrun : (runMetadataScript root stat files cat).1 =
      (updateCatalog stat root (scanForNewFiles root files cat).1).1 := rfl
  rw [hrun, collect_updateCatalog]
  exact scanFiles_nodup root (collectMaterialPaths cat) files cat hcat hdist hshape
    (fun f _ hc => contains_false_not_mem hc)

theorem scanUniquePathsAmendedCheck :
    (collectMaterialPaths
      (runMetadataScript "/r".data (fun _ => none) [c1GoodFile] c1Catalog).1).Nodup :=
  scanUniquePathsAmended "/r".data (fun _ => none) [c1GoodFile] c1Catalog (by decide)
    (by decide) (by decide)

/-! ### JSON round-trip lemmas (C9) -/

theorem digitsToNat_append (xs ys : List Char) :
    ∀ a : Nat, digitsToNat a (xs ++ ys) = digitsToNat (digitsToNat a xs) ys := by
  induction xs with
  | nil => intro a; rfl
  | cons c rest ih =>
    intro a
    have h2 : ∀ (b : Nat) (l : List Char),
        digitsToNat b (c :: l) = digitsToNat (b * 10 + digitVal c) l := fun b l => rfl
    rw [List.cons_append, h2, h2, ih]

theorem digitVal_ofNat (r : Nat) (h : r < 10) :
    digitVal (Char.ofNat ('0'.toNat + r)) = r := by
  interval_cases r <;> decide

theorem isDigitChar_ofNat (r : Nat) (h : r < 10) :
    isDigitChar (Char.ofNat ('0'.toNat + r)) = true := by
  interval_cases r <;> decide

theorem natToDecAux_spec : ∀ (fuel n : Nat), n < fuel →
    natToDecAux fuel n ≠ [] ∧ (∀ c ∈ natToDecAux fuel n, isDigitChar c = true) ∧
      ∀ a : Nat, digitsToNat a (natToDecAux fuel n) =
        a * 10 ^ (natToDecAux fuel n).length + n := by
  intro fuel
  induction fuel with
  | zero => intro n hn; omega
  | succ fuel ih =>
    intro n hn
    by_cases h10 : n < 10
    · have hform : natToDecAux (fuel + 1) n = [Char.ofNat ('0'.toNat + n)] := by
        simp only [natToDecAux, if_pos h10]
      rw [hform]
      refine ⟨by simp, ?_, ?_⟩
      · intro c hc
        rw [List.mem_singleton] at hc
        subst hc
        exact isDigitChar_ofNat n h10
      · intro a
        have hone : digitsToNat a [Char.ofNat ('0'.toNat + n)] =
            a * 10 + digitVal (Char.ofNat ('0'.toNat + n)) := rfl
        rw [hone, digitVal_ofNat n h10, List.length_singleton, pow_one]
    · have hdiv : n / 10 < fuel := by
        have := Nat.div_lt_self (by omega : 0 < n) (by omega : 1 < 10)
        omega
      obtain ⟨hne, hdig, hfold⟩ := ih (n / 10) hdiv
      have hform : natToDecAux (fuel + 1) n =
          natToDecAux fuel (n / 10) ++ [Char.ofNat ('0'.toNat + n % 10)] := by
        simp only [natToDecAux, if_neg h10]
      rw [hform]
      refine ⟨by simp, ?_, ?_⟩
      · intro c hc
        rcases List.mem_append.mp hc with hc | hc
        · exact hdig c hc
        · rw [List.mem_singleton] at hc
          subst hc
          exact isDigitChar_ofNat (n % 10) (Nat.mod_lt _ (by omega))
      · intro a
        rw [digitsToNat_append, hfold a]
        have hone : digitsToNat (a * 10 ^ (natToDecAux fuel (n / 10)).length + n / 10)
            [Char.ofNat ('0'.toNat + n % 10)] =
            (a * 10 ^ (natToDecAux fuel (n / 10)).length + n / 10) * 10 +
              digitVal (Char.ofNat ('0'.toNat + n % 10)) := rfl
        rw [hone, digitVal_ofNat (n % 10) (Nat.mod_lt _ (by omega)),
          List.length_append, List.length_singleton, pow_succ, ← Nat.mul_assoc]
        generalize a * 10 ^ (natToDecAux fuel (n / 10)).length = P
        omega

theorem natToDec_spec (n : Nat) :
    natToDec n ≠ [] ∧ (∀ c ∈ natToDec n, isDigitChar c = true) ∧
      digitsToNat 0 (natToDec n) = n := by
  obtain ⟨h1, h2, h3⟩ := natToDecAux_spec (n + 1) n (Nat.lt_succ_self n)
  exact ⟨h1, h2, by simpa using h3 0⟩

theorem takeWhile_digits_append (ds rest : List Char)
    (hds : ∀ c ∈ ds, isDigitChar c = true) (hrest : nonDigitStart rest = true) :
    (ds ++ rest).takeWhile isDigitChar = ds := by
  induction ds with
  | nil =>
    cases rest with
    | nil => rfl
    | cons c r =>
      have : isDigitChar c = false := by simpa [nonDigitStart] using hrest
      simp [List.takeWhile, this]
  | cons d ds ih =>
    have hd : isDigitChar d = true := hds d (List.mem_cons_self _ _)
    simp [List.takeWhile, hd]
    exact ih fun c hc => hds c (List.mem_cons_of_mem _ hc)

theorem hexVal_hexDigitChar (x : Nat) (h : x < 16) : hexVal (hexDigitChar x) = some x := by
  interval_cases x <;> decide

theorem parseStr_escape (s : List Char) : ∀ (acc rest : List Char),
    parseStrAux (escapeStr s ++ '"' :: rest) acc = some (acc.reverse ++ s, rest) := by
  induction s with
  | nil =>
    intro acc rest
    rw [show escapeStr [] ++ '"' :: rest = '"' :: rest by simp [escapeStr]]
    rw [parseStrAux.eq_def]
    simp
  | cons c s ih =>
    intro acc rest
    rw [show escapeStr (c :: s) = escapeChar c ++ escapeStr s from rfl]
    unfold escapeChar
    split_ifs with h1 h2 h3 h4 h5 h6 h7 h8
    · subst h1
      rw [List.append_assoc, List.cons_append, List.cons_append, List.nil_append,
        parseStrAux.eq_def]
      simp [ih]
    · subst h2
      rw [List.append_assoc, List.cons_append, List.cons_append, List.nil_append,
        parseStrAux.eq_def]
      simp [ih]
    · subst h3
      rw [List.append_assoc, List.cons_append, List.cons_append, List.nil_append,
        parseStrAux.eq_def]
      simp [ih]
    · subst h4
      rw [List.append_assoc, List.cons_append, List.cons_append, List.nil_append,
        parseStrAux.eq_def]
      simp [ih]
    · subst h5
      rw [List.append_assoc, List.cons_append, List.cons_append, List.nil_append,
        parseStrAux.eq_def]
      simp [ih]
    · subst h6
      rw [List.append_assoc, List.cons_append, List.cons_append, List.nil_append,
        parseStrAux.eq_def]
      simp [ih]
    · subst h7
      rw [List.append_assoc, List.cons_append, List.cons_append, List.nil_append,
        parseStrAux.eq_def]
      simp [ih]
    · -- the \u00XX escape for the remaining control characters
      have hv1 : hexVal '0' = some 0 := by decide
      have hv3 : hexVal (hexDigitChar (c.toNat / 16)) = some (c.toNat / 16) :=
        hexVal_hexDigitChar _ (by omega)
      have hv4 : hexVal (hexDigitChar (c.toNat % 16)) = some (c.toNat % 16) :=
        hexVal_hexDigitChar _ (Nat.mod_lt _ (by omega))
      have hcode : ((0 * 16 + 0) * 16 + c.toNat / 16) * 16 + c.toNat % 16 = c.toNat := by
        omega
      rw [List.append_assoc]
      simp only [List.cons_append, List.nil_append]
      rw [parseStrAux.eq_def]
      simp [hv1, hv3, hv4, ih]
      have hc2 : c.toNat / 16 * 16 + c.toNat % 16 = c.toNat := by omega
      rw [hc2, Char.ofNat_toNat]
    · -- ordinary character
      have hc32 : ¬(c.toNat < 32) := h8
      rw [List.append_assoc]
      simp only [List.cons_append, List.nil_append]
      rw [parseStrAux.eq_def]
      simp [h1, h2, hc32, ih]

theorem takeDigits_append (ds rest : List Char)
    (hds : ∀ c ∈ ds, isDigitChar c = true) (hrest : nonDigitStart rest = true) :
    takeDigits (ds ++ rest) = ds :=
  takeWhile_digits_append ds rest hds hrest

theorem digit_head_ne (c : Char) (h : isDigitChar c = true) :
    c ≠ 'n' ∧ c ≠ 't' ∧ c ≠ 'f' ∧ c ≠ '"' ∧ c ≠ '[' ∧ c ≠ '\x7b' ∧ c ≠ '-' :=
  ⟨fun hEq => by subst hEq; exact absurd h (by decide),
   fun hEq => by subst hEq; exact absurd h (by decide),
   fun hEq => by subst hEq; exact absurd h (by decide),
   fun hEq => by subst hEq; exact absurd h (by decide),
   fun hEq => by subst hEq; exact absurd h (by decide),
   fun hEq => by subst hEq; exact absurd h (by decide),
   fun hEq => by subst hEq; exact absurd h (by decide)⟩

theorem satBoundary (t : JArr) (rest : List Char) :
    nonDigitStart (stringifyArrTail t ++ ']' :: rest) = true := by
  cases t <;> rfl

theorem sotBoundary (t : JObj) (rest : List Char) :
    nonDigitStart (stringifyObjTail t ++ '\x7d' :: rest) = true := by
  cases t <;> rfl

theorem pv_rbracket_none (fuel : Nat) (rest : List Char) :
    (jsonParsers fuel).1 (']' :: rest) = none := by
  cases fuel with
  | zero => rfl
  | succ fuel => simp [jsonParsers, isDigitChar]

theorem stringify_ne_nil (v : JVal) : stringifyVal v ≠ [] := by
  cases v with
  | null => simp [stringifyVal]
  | bool b => cases b <;> simp [stringifyVal]
  | num n =>
    simp only [stringifyVal, intToDec]
    split_ifs with h
    · simp
    · exact (natToDec_spec n.toNat).1
  | str s => simp [stringifyVal]
  | arr xs => simp [stringifyVal]
  | obj fs => simp [stringifyVal]

theorem jsonParsers_spec : ∀ fuel : Nat,
    (∀ (v : JVal) (rest : List Char), (stringifyVal v).length + 1 ≤ fuel →
      nonDigitStart rest = true →
      (jsonParsers fuel).1 (stringifyVal v ++ rest) = some (v, rest)) ∧
    (∀ (t : JArr) (rest : List Char), (stringifyArrTail t).length + 1 ≤ fuel →
      (jsonParsers fuel).2.1 (stringifyArrTail t ++ ']' :: rest) = some (t, rest)) ∧
    (∀ (t : JObj) (rest : List Char), (stringifyObjTail t).length + 1 ≤ fuel →
      (jsonParsers fuel).2.2 (stringifyObjTail t ++ '\x7d' :: rest) = some (t, rest)) := by
  intro fuel
  induction fuel with
  | zero =>
    exact ⟨fun v rest hlen _ => by omega, fun t rest hlen => by omega,
      fun t rest hlen => by omega⟩
  | succ fuel ih =>
    obtain ⟨ihv, iha, iho⟩ := ih
    refine ⟨?_, ?_, ?_⟩
    · intro v rest hlen hnd
      cases v with
      | null =>
        rw [show stringifyVal JVal.null ++ rest = 'n' :: 'u' :: 'l' :: 'l' :: rest from rfl]
        simp [jsonParsers]
      | bool b =>
        cases b
        · rw [show stringifyVal (JVal.bool false) ++ rest =
            'f' :: 'a' :: 'l' :: 's' :: 'e' :: rest from rfl]
          simp [jsonParsers]
        · rw [show stringifyVal (JVal.bool true) ++ rest =
            't' :: 'r' :: 'u' :: 'e' :: rest from rfl]
          simp [jsonParsers]
      | num n =>
        by_cases hneg : n < 0
        · obtain ⟨hne, hdig, hfold⟩ := natToDec_spec n.natAbs
          obtain ⟨d, ds, hds⟩ : ∃ d ds, natToDec n.natAbs = d :: ds := by
            cases hx : natToDec n.natAbs with
            | nil => exact absurd hx hne
            | cons d ds => exact ⟨d, ds, rfl⟩
          rw [hds] at hdig hfold
          have hshow : stringifyVal (JVal.num n) ++ rest = '-' :: ((d :: ds) ++ rest) := by
            simp [stringifyVal, intToDec, if_pos hneg, hds]
          rw [hshow]
          have htake : takeDigits ((d :: ds) ++ rest) = d :: ds :=
            takeDigits_append _ _ hdig hnd
          have hdrop : ((d :: ds) ++ rest).drop (d :: ds).length = rest :=
            List.drop_left _ _
          have hint : -((n.natAbs : Nat) : Int) = n := by omega
          have htake2 : takeDigits (d :: (ds ++ rest)) = d :: ds := htake
          have hdrop2 : List.drop (d :: ds).length (d :: (ds ++ rest)) = rest := hdrop
          simp only [jsonParsers]
          simp [htake2, hdrop2, hfold, hint]
          rw [abs_of_neg hneg, neg_neg]
        · obtain ⟨hne, hdig, hfold⟩ := natToDec_spec n.toNat
          obtain ⟨d, ds, hds⟩ : ∃ d ds, natToDec n.toNat = d :: ds := by
            cases hx : natToDec n.toNat with
            | nil => exact absurd hx hne
            | cons d ds => exact ⟨d, ds, rfl⟩
          rw [hds] at hdig hfold
          have hdd : isDigitChar d = true := hdig d (List.mem_cons_self _ _)
          obtain ⟨hn1, hn2, hn3, hn4, hn5, hn6, hn7⟩ := digit_head_ne d hdd
          have hshow : stringifyVal (JVal.num n) ++ rest = (d :: ds) ++ rest := by
            simp [stringifyVal, intToDec, if_neg hneg, hds]
          rw [hshow]
          have htake : takeDigits ((d :: ds) ++ rest) = d :: ds :=
            takeDigits_append _ _ hdig hnd
          have hdrop : ((d :: ds) ++ rest).drop (d :: ds).length = rest :=
            List.drop_left _ _
          have hint : ((n.toNat : Nat) : Int) = n := by omega
          have htake2 : takeDigits (d :: (ds ++ rest)) = d :: ds := htake
          have hdrop2 : List.drop (d :: ds).length (d :: (ds ++ rest)) = rest := hdrop
          simp [jsonParsers, hn1, hn2, hn3, hn4, hn5, hn6, hn7, hdd, htake2, hdrop2, hfold,
            hint]
      | str s =>
        have hshow : stringifyVal (JVal.str s) ++ rest =
            '"' :: (escapeStr s ++ '"' :: rest) := by
          simp [stringifyVal]
        rw [hshow]
        simp [jsonParsers, parseStr_escape s []]
      | arr xs =>
        cases xs with
        | nil =>
          rw [show stringifyVal (JVal.arr JArr.nil) ++ rest = '[' :: ']' :: rest from rfl]
          simp [jsonParsers, pv_rbracket_none]
        | cons h t =>
          have hlens : (stringifyVal h).length + 1 ≤ fuel ∧
              (stringifyArrTail t).length + 1 ≤ fuel := by
            simp only [stringifyVal, stringifyArr, List.length_cons,
              List.length_append, List.length_singleton] at hlen
            omega
          have hshow : stringifyVal (JVal.arr (JArr.cons h t)) ++ rest =
              '[' :: (stringifyVal h ++ (stringifyArrTail t ++ ']' :: rest)) := by
            simp [stringifyVal, stringifyArr]
          rw [hshow]
          have hv := ihv h (stringifyArrTail t ++ ']' :: rest) hlens.1 (satBoundary t rest)
          have ha := iha t rest hlens.2
          simp [jsonParsers, hv, ha]
      | obj fs =>
        cases fs with
        | nil =>
          rw [show stringifyVal (JVal.obj JObj.nil) ++ rest =
            '\x7b' :: '\x7d' :: rest from rfl]
          simp [jsonParsers]
        | cons k v2 t =>
          have hlens : (stringifyVal v2).length + 1 ≤ fuel ∧
              (stringifyObjTail t).length + 1 ≤ fuel := by
            simp only [stringifyVal, stringifyObj, List.length_cons,
              List.length_append, List.length_singleton] at hlen
            omega
          have hshow : stringifyVal (JVal.obj (JObj.cons k v2 t)) ++ rest =
              '\x7b' :: '"' :: (escapeStr k ++
                '"' :: ':' :: (stringifyVal v2 ++ (stringifyObjTail t ++ '\x7d' :: rest))) := by
            simp [stringifyVal, stringifyObj]
          rw [hshow]
          have hv := ihv v2 (stringifyObjTail t ++ '\x7d' :: rest) hlens.1 (sotBoundary t rest)
          have ho := iho t rest hlens.2
          simp [jsonParsers, parseStr_escape k [], hv, ho]
    · intro t rest hlen
      cases t with
      | nil =>
        rw [show stringifyArrTail JArr.nil ++ ']' :: rest = ']' :: rest from rfl]
        simp [jsonParsers]
      | cons h t =>
        have hlens : (stringifyVal h).length + 1 ≤ fuel ∧
            (stringifyArrTail t).length + 1 ≤ fuel := by
          simp only [stringifyArrTail, List.length_cons, List.length_append] at hlen
          omega
        have hshow : stringifyArrTail (JArr.cons h t) ++ ']' :: rest =
            ',' :: (stringifyVal h ++ (stringifyArrTail t ++ ']' :: rest)) := by
          simp [stringifyArrTail]
        rw [hshow]
        have hv := ihv h (stringifyArrTail t ++ ']' :: rest) hlens.1 (satBoundary t rest)
        have ha := iha t rest hlens.2
        simp [jsonParsers, hv, ha]
    · intro t rest hlen
      cases t with
      | nil =>
        rw [show stringifyObjTail JObj.nil ++ '\x7d' :: rest = '\x7d' :: rest from rfl]
        simp [jsonParsers]
      | cons k v2 t =>
        have hlens : (stringifyVal v2).length + 1 ≤ fuel ∧
            (stringifyObjTail t).length + 1 ≤ fuel := by
          simp only [stringifyObjTail, List.length_cons, List.length_append] at hlen
          omega
        have hshow : stringifyObjTail (JObj.cons k v2 t) ++ '\x7d' :: rest =
            ',' :: '"' :: (escapeStr k ++
              '"' :: ':' :: (stringifyVal v2 ++ (stringifyObjTail t ++ '\x7d' :: rest))) := by
          simp [stringifyObjTail]
        rw [hshow]
        have hv := ihv v2 (stringifyObjTail t ++ '\x7d' :: rest) hlens.1 (sotBoundary t rest)
        have ho := iho t rest hlens.2
        simp [jsonParsers, parseStr_escape k [], hv, ho]

theorem stringify_roundtrip (v : JVal) : jsonParse (stringifyVal v) = some v := by
  have h := (jsonParsers_spec ((stringifyVal v).length + 1)).1 v [] (le_refl _) rfl
  rw [List.append_nil] at h
  unfold jsonParse
  rw [h]

/-- C9: the offline cache round-trips: whenever `saveOfflineData` reports
success, a subsequent `loadOfflineData` of the same key returns a value
structurally equal to the saved one; and `loadOfflineData` returns `null`
(never throwing) when the key is absent, when the stored string fails to
parse, and when localStorage itself throws. -/
theorem offlineCacheRoundTrip (ls : CacheStore) (st : List (List Char × List Char))
    (key s : List Char) (v : JVal) :
    ((saveOfflineData ls key v).2 = true →
      loadOfflineData (saveOfflineData ls key v).1 key = some v) ∧
    (assocGet key st = none → loadOfflineData (.avail st) key = none) ∧
    (assocGet key st = some s → jsonParse s = none →
      loadOfflineData (.avail st) key = none) ∧
    loadOfflineData .broken key = none := by
  refine ⟨?_, ?_, ?_, rfl⟩
  · intro hok
    cases ls with
    | broken => exact absurd hok (by simp [saveOfflineData])
    | avail st0 =>
      have hsave : (saveOfflineData (.avail st0) key v).1 =
          .avail (assocSet key (stringifyVal v) st0) := rfl
      rw [hsave]
      show (match assocGet key (assocSet key (stringifyVal v) st0) with
        | none => none
        | some s =>
          if s.isEmpty then none
          else match jsonParse s with
            | some w => some w
            | none => none) = some v
      rw [assocGet_assocSet_self]
      have hne : (stringifyVal v).isEmpty = false := by
        cases hx : stringifyVal v with
        | nil => exact absurd hx (stringify_ne_nil v)
        | cons c cs => rfl
      show (if (stringifyVal v).isEmpty = true then none
        else match jsonParse (stringifyVal v) with
          | some w => some w
          | none => none) = some v
      rw [if_neg (by simp [hne]), stringify_roundtrip]
  · intro habs
    show (match assocGet key st with
      | none => none
      | some s =>
        if s.isEmpty then none
        else match jsonParse s with
          | some w => some w
          | none => none) = none
    rw [habs]
  · intro hsome hfail
    show (match assocGet key st with
      | none => none
      | some s =>
        if s.isEmpty then none
        else match jsonParse s with
          | some w => some w
          | none => none) = none
    rw [hsome]
    simp [hfail]

theorem offlineCacheRoundTripCheck :
    loadOfflineData
        (saveOfflineData (.avail []) "tasks".data
          (.obj (.cons "a".data (.num (-2)) .nil))).1 "tasks".data =
      some (.obj (.cons "a".data (.num (-2)) .nil)) ∧
    loadOfflineData (.avail []) "gpa".data = none ∧
    loadOfflineData (.avail [("bad".data, "x".data)]) "bad".data = none :=
  ⟨(offlineCacheRoundTrip (.avail []) [] "tasks".data [] (.obj (.cons "a".data (.num (-2)) .nil))).1 rfl,
   (offlineCacheRoundTrip (.avail []) [] "gpa".data [] (.obj (.cons "a".data (.num (-2)) .nil))).2.1 rfl,
   (offlineCacheRoundTrip (.avail [("bad".data, "x".data)]) [("bad".data, "x".data)]
      "bad".data "x".data (.obj (.cons "a".data (.num (-2)) .nil))).2.2.1 rfl (by decide)⟩
